import Mathlib

/-!
Verification development for the `mrp` map/reduce/produce pipeline.

We shallowly embed the Python sources:
  * `src/mrp/dsl/schema.py`   — job description data model, `normalize_json`
  * `src/mrp/artifacts/store.py` — content-addressed store (`digest_json`,
    `put_json`, `get_json`)
  * `src/mrp/compiler.py`     — `derive_seed`, `materialize_generated`,
    `compile_job`
  * `src/mrp/runtime/local.py` — `run_ir` (local backend)
  * `src/mrp/runtime/backends/cloud_sandbox.py` — output scanning of
    `_daytona_remote_run`

Structured documents (Python dicts/lists/scalars as handled by `orjson`) are
modeled by the mutual inductive `Json`.  The blake3 hex digest of the
canonical byte serialization is modeled by an explicit function parameter
`hashJson : Json → String` applied to the key-normalized document (and
`hashStr : String → String` for digests of raw source text); collision
freeness, where the spec relies on it, appears as an explicit injectivity
hypothesis.  Filesystem state (artifact dir, ops dir) is threaded as explicit
association lists.  Thread-pool completion nondeterminism is an explicit
`arrival` permutation parameter.  Wall-clock time (`datetime.utcnow`) is an
explicit `timestamp` parameter.
-/

mutual
/-- A structured document: the values `orjson` serializes (floats omitted;
the repository only uses ints, strings, bools, nulls, lists, dicts). -/
inductive Json where
  | null : Json
  | bool (b : Bool) : Json
  | num (n : Int) : Json
  | str (s : String) : Json
  | arr (xs : JsonArr) : Json
  | obj (kvs : JsonObj) : Json
  deriving DecidableEq, Repr

/-- A JSON array (list spine, mutual with `Json`). -/
inductive JsonArr where
  | nil : JsonArr
  | cons (hd : Json) (tl : JsonArr) : JsonArr
  deriving DecidableEq, Repr

/-- A JSON object: a sequence of key/value pairs in insertion order
(Python dicts never hold duplicate keys). -/
inductive JsonObj where
  | nil : JsonObj
  | cons (key : String) (val : Json) (tl : JsonObj) : JsonObj
  deriving DecidableEq, Repr
end

/-- Build a `JsonArr` from a Lean list. -/
def arrOfList : List Json → JsonArr
  | [] => .nil
  | x :: xs => .cons x (arrOfList xs)

/-- Build a `JsonObj` from a Lean list of pairs. -/
def objOfList : List (String × Json) → JsonObj
  | [] => .nil
  | (k, v) :: rest => .cons k v (objOfList rest)

/-- First value bound to `k`, as in a Python dict lookup. -/
def objLookup : JsonObj → String → Option Json
  | .nil, _ => none
  | .cons k v tl, k' => if k = k' then some v else objLookup tl k'

/-- Code-point sequence of a string: Python compares digest strings
lexicographically by code point, and so does this key (an order-isomorphic,
kernel-computable representation of the string order). -/
def strKey (s : String) : List Nat :=
  s.data.map Char.toNat

theorem strKey_inj {a b : String} (h : strKey a = strKey b) : a = b := by
  have hdata : a.data = b.data :=
    List.map_injective_iff.2
      (fun x y hxy => Char.eq_of_val_eq (UInt32.ext hxy)) h
  cases a
  cases b
  exact congrArg String.mk hdata

/-- Insert a pair into a key-sorted object, keeping keys ascending
(helper of the canonical encoder's key sorting). -/
def objInsert (k : String) (v : Json) : JsonObj → JsonObj
  | .nil => .cons k v .nil
  | .cons k' v' tl =>
    if strKey k ≤ strKey k' then .cons k v (.cons k' v' tl)
    else .cons k' v' (objInsert k v tl)

/-- Sort an object's pairs ascending by key: the `OPT_SORT_KEYS` behavior of
`orjson.dumps` at one object level. -/
def objSort : JsonObj → JsonObj
  | .nil => .nil
  | .cons k v tl => objInsert k v (objSort tl)

/-- Keys appear in ascending order. -/
def objSorted : JsonObj → Bool
  | .nil => true
  | .cons _ _ .nil => true
  | .cons k _ (.cons k' v' tl) =>
    decide (strKey k ≤ strKey k') && objSorted (.cons k' v' tl)

mutual
/-- Canonical form of a document: every object has its keys sorted,
recursively.  `normalize_json(x)` in `schema.py` (and `orjson.dumps(x,
option=orjson.OPT_SORT_KEYS)` in `store.py`) serializes exactly this form,
so two documents have equal canonical bytes iff their `normJson` agree. -/
def normJson : Json → Json
  | .null => .null
  | .bool b => .bool b
  | .num n => .num n
  | .str s => .str s
  | .arr xs => .arr (normArr xs)
  | .obj kvs => .obj (objSort (normObjVals kvs))

/-- Normalize every element of an array. -/
def normArr : JsonArr → JsonArr
  | .nil => .nil
  | .cons x xs => .cons (normJson x) (normArr xs)

/-- Normalize every value of an object (keys untouched; sorting is applied
by `normJson` afterwards). -/
def normObjVals : JsonObj → JsonObj
  | .nil => .nil
  | .cons k v tl => .cons k (normJson v) (normObjVals tl)
end

theorem objInsert_sorted (k : String) (v : Json) :
    ∀ l : JsonObj, objSorted l = true → objSorted (objInsert k v l) = true
  | .nil, _ => rfl
  | .cons k' v' tl, hs => by
    by_cases hk : strKey k ≤ strKey k'
    · simp only [objInsert, if_pos hk, objSorted]
      simp [hk, hs]
    · simp only [objInsert, if_neg hk]
      have hk' : strKey k' ≤ strKey k := le_of_not_le hk
      cases tl with
      | nil =>
        simp only [objInsert, objSorted]
        simp [hk']
      | cons k2 v2 tl2 =>
        have hs' : objSorted (JsonObj.cons k2 v2 tl2) = true := by
          simp only [objSorted, Bool.and_eq_true, decide_eq_true_eq] at hs
          exact hs.2
        have h12 : strKey k' ≤ strKey k2 := by
          simp only [objSorted, Bool.and_eq_true, decide_eq_true_eq] at hs
          exact hs.1
        have htail := objInsert_sorted k v (JsonObj.cons k2 v2 tl2) hs'
        by_cases hk2 : strKey k ≤ strKey k2
        · simp only [objInsert, if_pos hk2, objSorted]
          simp [hk', hk2, hs']
        · simp only [objInsert, if_neg hk2] at htail ⊢
          simp only [objSorted, Bool.and_eq_true, decide_eq_true_eq]
          exact ⟨h12, htail⟩

theorem objSort_sorted : ∀ l : JsonObj, objSorted (objSort l) = true
  | .nil => rfl
  | .cons k v tl => objInsert_sorted k v (objSort tl) (objSort_sorted tl)

theorem objSort_of_sorted : ∀ l : JsonObj, objSorted l = true → objSort l = l
  | .nil, _ => rfl
  | .cons k v tl, hs => by
    cases tl with
    | nil => rfl
    | cons k' v' tl' =>
      simp only [objSorted, Bool.and_eq_true, decide_eq_true_eq] at hs
      have htl : objSort (JsonObj.cons k' v' tl') = JsonObj.cons k' v' tl' :=
        objSort_of_sorted (JsonObj.cons k' v' tl') hs.2
      simp only [objSort] at htl ⊢
      rw [htl]
      simp [objInsert, hs.1]

theorem objSort_idem (l : JsonObj) : objSort (objSort l) = objSort l :=
  objSort_of_sorted _ (objSort_sorted l)

theorem normObjVals_objInsert (k : String) (v : Json) :
    ∀ l : JsonObj, normObjVals (objInsert k v l) = objInsert k (normJson v) (normObjVals l)
  | .nil => rfl
  | .cons k' v' tl => by
    by_cases hk : strKey k ≤ strKey k'
    · simp [objInsert, hk, normObjVals]
    · simp [objInsert, hk, normObjVals, normObjVals_objInsert k v tl]

theorem normObjVals_objSort : ∀ l : JsonObj, normObjVals (objSort l) = objSort (normObjVals l)
  | .nil => rfl
  | .cons k v tl => by
    simp [objSort, normObjVals, normObjVals_objInsert, normObjVals_objSort tl]

mutual
theorem normJson_idem : ∀ j : Json, normJson (normJson j) = normJson j
  | .null => rfl
  | .bool _ => rfl
  | .num _ => rfl
  | .str _ => rfl
  | .arr xs => by simp only [normJson]; rw [normArr_idem xs]
  | .obj kvs => by
    simp only [normJson]
    rw [normObjVals_objSort, objSort_idem, normObjVals_idem kvs]

theorem normArr_idem : ∀ xs : JsonArr, normArr (normArr xs) = normArr xs
  | .nil => rfl
  | .cons x xs => by
    simp only [normArr]
    rw [normJson_idem x, normArr_idem xs]

theorem normObjVals_idem : ∀ l : JsonObj, normObjVals (normObjVals l) = normObjVals l
  | .nil => rfl
  | .cons k v tl => by
    simp only [normObjVals]
    rw [normJson_idem v, normObjVals_idem tl]
end

/-- Python `==` on documents ignores dict key order; equal canonical forms
are a sound witness of Python equality. -/
def pyEq (a b : Json) : Prop := normJson a = normJson b

/-! ## Artifact store (`src/mrp/artifacts/store.py`)

The store directory `.mrp/artifacts` is modeled as an association list from
digest string to the document that parsing the stored canonical bytes
returns (i.e. the normalized document).  `hashJson` models
`blake3(serialized bytes).hexdigest()` applied to the canonical form. -/

/-- State of the `.mrp/artifacts` directory. -/
abbrev Store := List (String × Json)

/-- `digest_json`: blake3 hex digest of `orjson.dumps(obj, OPT_SORT_KEYS)`. -/
def digest_json (hashJson : Json → String) (x : Json) : String :=
  hashJson (normJson x)

/-- `put_json`: compute the digest; write the canonical bytes only when no
blob exists at that digest; return the digest (and new store state). -/
def put_json (hashJson : Json → String) (x : Json) (st : Store) : String × Store :=
  let d := digest_json hashJson x
  match List.lookup d st with
  | some _ => (d, st)
  | none => (d, (d, normJson x) :: st)

/-- `get_json`: parse the blob stored at `digest` (none when absent,
modeling `FileNotFoundError`). -/
def get_json (st : Store) (d : String) : Option Json :=
  List.lookup d st

/-! ## Stable ascending sort by key

Python's `sorted(xs, key=k)` is a stable ascending sort.  `insertByKey`
places an element before the first element of greater-or-equal key, and
`sortByKey` inserts from the right, so earlier elements end up before
later elements of equal key — exactly Python's stability guarantee. -/

/-- Insert `x` before the first element whose key is ≥ `k x`. -/
def insertByKey {α β : Type} [LinearOrder β] (k : α → β) (x : α) : List α → List α
  | [] => [x]
  | y :: ys => if k x ≤ k y then x :: y :: ys else y :: insertByKey k x ys

/-- Stable ascending insertion sort by key: the model of Python `sorted`. -/
def sortByKey {α β : Type} [LinearOrder β] (k : α → β) : List α → List α
  | [] => []
  | x :: xs => insertByKey k x (sortByKey k xs)

theorem insertByKey_perm {α β : Type} [LinearOrder β] (k : α → β) (x : α) :
    ∀ l : List α, List.Perm (insertByKey k x l) (x :: l)
  | [] => List.Perm.refl _
  | y :: ys => by
    by_cases h : k x ≤ k y
    · simp [insertByKey, h]
    · simp only [insertByKey, if_neg h]
      exact ((insertByKey_perm k x ys).cons y).trans (List.Perm.swap x y ys)

theorem sortByKey_perm {α β : Type} [LinearOrder β] (k : α → β) :
    ∀ l : List α, List.Perm (sortByKey k l) l
  | [] => List.Perm.refl _
  | x :: xs =>
    (insertByKey_perm k x (sortByKey k xs)).trans ((sortByKey_perm k xs).cons x)

theorem insertByKey_pairwise {α β : Type} [LinearOrder β] (k : α → β) (x : α) :
    ∀ l : List α, List.Pairwise (fun a b => k a ≤ k b) l →
      List.Pairwise (fun a b => k a ≤ k b) (insertByKey k x l)
  | [], _ => List.pairwise_singleton _ _
  | y :: ys, hp => by
    rcases List.pairwise_cons.1 hp with ⟨hy, hys⟩
    by_cases h : k x ≤ k y
    · simp only [insertByKey, if_pos h]
      refine List.pairwise_cons.2 ⟨?_, hp⟩
      intro c hc
      rcases List.mem_cons.1 hc with rfl | hc
      · exact h
      · exact le_trans h (hy _ hc)
    · simp only [insertByKey, if_neg h]
      refine List.pairwise_cons.2 ⟨?_, insertByKey_pairwise k x ys hys⟩
      intro c hc
      have hc' := (insertByKey_perm k x ys).mem_iff.1 hc
      rcases List.mem_cons.1 hc' with rfl | hc'
      · exact le_of_not_le h
      · exact hy _ hc'

theorem sortByKey_pairwise {α β : Type} [LinearOrder β] (k : α → β) :
    ∀ l : List α, List.Pairwise (fun a b => k a ≤ k b) (sortByKey k l)
  | [] => List.Pairwise.nil
  | x :: xs => insertByKey_pairwise k x (sortByKey k xs) (sortByKey_pairwise k xs)

/-- Two sorted permutations of one multiset agree when elements with equal
keys are themselves equal: the uniqueness fact behind completion-order
independence of the sorted map-result list. -/
theorem sorted_perm_unique {α β : Type} [LinearOrder β] (k : α → β) :
    ∀ l₁ l₂ : List α, List.Perm l₁ l₂ →
      List.Pairwise (fun a b => k a ≤ k b) l₁ →
      List.Pairwise (fun a b => k a ≤ k b) l₂ →
      (∀ a ∈ l₁, ∀ b ∈ l₁, k a = k b → a = b) →
      l₁ = l₂
  | [], l₂, hp, _, _, _ => (List.Perm.nil_eq hp).symm ▸ rfl
  | a :: t₁, l₂, hp, hs₁, hs₂, hties => by
    cases l₂ with
    | nil => exact absurd hp.symm (by simp)
    | cons b t₂ =>
      rcases List.pairwise_cons.1 hs₁ with ⟨ha, ht₁⟩
      rcases List.pairwise_cons.1 hs₂ with ⟨hb, ht₂⟩
      have hab : a = b := by
        have hmem_a : a ∈ b :: t₂ := hp.subset (List.mem_cons_self a t₁)
        have hmem_b : b ∈ a :: t₁ := hp.symm.subset (List.mem_cons_self b t₂)
        have hab' : k a ≤ k b := by
          rcases List.mem_cons.1 hmem_b with h | h
          · exact le_of_eq (congrArg k h.symm)
          · exact ha _ h
        have hba : k b ≤ k a := by
          rcases List.mem_cons.1 hmem_a with h | h
          · exact le_of_eq (congrArg k h.symm)
          · exact hb _ h
        exact hties a (List.mem_cons_self a t₁) b hmem_b (le_antisymm hab' hba)
      subst hab
      have htp : List.Perm t₁ t₂ := List.Perm.cons_inv hp
      have := sorted_perm_unique k t₁ t₂ htp ht₁ ht₂
        (fun x hx y hy hxy =>
          hties x (List.mem_cons_of_mem a hx) y (List.mem_cons_of_mem a hy) hxy)
      rw [this]

/-! ## Job description (`src/mrp/dsl/schema.py`) and IR (`src/mrp/ir/model.py`) -/

/-- `GeneratedOperator`: inline operator source plus entrypoint. -/
structure GeneratedOperator where
  code : String
  entrypoint : String
  deriving DecidableEq, Repr

/-- `MapSpec`: optional legacy import path, optional generated operator,
shard parameter documents. -/
structure MapSpec where
  operator : Option String := none
  generated : Option GeneratedOperator := none
  shards : List Json := []
  deriving DecidableEq, Repr

/-- `ReduceSpec`. -/
structure ReduceSpec where
  operator : Option String := none
  generated : Option GeneratedOperator := none
  config : Json := .obj .nil
  deriving DecidableEq, Repr

/-- `ProduceSpec`. -/
structure ProduceSpec where
  operator : Option String := none
  generated : Option GeneratedOperator := none
  config : Json := .obj .nil
  deriving DecidableEq, Repr

/-- `JobSpec`: version, job id, three stage specs. -/
structure JobSpec where
  version : String := "v0"
  job_id : String
  map : MapSpec
  reduce : ReduceSpec
  produce : ProduceSpec
  deriving DecidableEq, Repr

/-- `MapTask` of the IR. -/
structure MapTask where
  operator : String
  shard_id : Nat
  params : Json
  deriving DecidableEq, Repr

/-- `ReduceTask` of the IR. -/
structure ReduceTask where
  operator : String
  config : Json
  deriving DecidableEq, Repr

/-- `ProduceTask` of the IR. -/
structure ProduceTask where
  operator : String
  config : Json
  deriving DecidableEq, Repr

/-- The manifest dict built by `compile_job`: job id, seed, and the three
entries of its `operators` sub-dict (`materialized.get(kind, declared)`,
which can be `None` exactly when the declared operator was `None` and no
materialization ran for that kind). -/
structure Manifest where
  job_id : String
  seed : String
  opMap : Option String
  opReduce : Option String
  opProduce : Option String
  deriving DecidableEq, Repr

/-- The IR emitted by the compiler. -/
structure IR where
  maps : List MapTask
  reduceTask : ReduceTask
  produceTask : ProduceTask
  manifest : Manifest
  deriving DecidableEq, Repr

/-! ## Compiler (`src/mrp/compiler.py`) -/

/-- Json encoding of an `Optional[str]` field. -/
def optStrJson : Option String → Json
  | some s => .str s
  | none => .null

/-- The payload dict built inside `derive_seed`. -/
def seedPayload (job : JobSpec) : Json :=
  .obj (objOfList [
    ("dsl_version", .str job.version),
    ("job_id", .str job.job_id),
    ("map_shards", .arr (arrOfList job.map.shards)),
    ("operators", .obj (objOfList [
      ("map", optStrJson job.map.operator),
      ("reduce", optStrJson job.reduce.operator),
      ("produce", optStrJson job.produce.operator)]))])

/-- `derive_seed`: blake3 hex digest of `normalize_json(payload)`. -/
def derive_seed (hashJson : Json → String) (job : JobSpec) : String :=
  hashJson (normJson (seedPayload job))

/-- Compile-time and run-time error values.  `validationError` models the
failed `assert fallback_operator` in `materialize_generated` (the spec's
`ValidationError`: a stage lacking both an operator reference and generated
source); `resolutionError` models a failing `_load`; `remoteExecutionError`
models the `RuntimeError`s raised by `_daytona_remote_run`. -/
inductive Err where
  | validationError (kind : String)
  | resolutionError (what : String)
  | remoteExecutionError (msg : String)
  deriving DecidableEq, Repr

/-- State of the `.mrp/ops_pkg` directory (code digest ↦ file contents) plus
the compiler's `materialized` dict (kind ↦ resolved ref, newest first). -/
structure CompSt where
  ops : List (String × String)
  materialized : List (String × String)
  deriving DecidableEq, Repr

/-- `ep.split(":")[-1]`. -/
def epClass (ep : String) : String :=
  (ep.splitOn ":").getLastD ""

/-- The `assert fallback_operator` branch of `materialize_generated`:
a present, non-empty (truthy) fallback is returned unchanged; otherwise the
stage fails validation. -/
def matFallback (kind : String) (fallback : Option String) (st : CompSt) :
    Except Err (String × CompSt) :=
  match fallback with
  | some f => if f = "" then .error (.validationError kind) else .ok (f, st)
  | none => .error (.validationError kind)

/-- `materialize_generated`: with truthy inline `code` and `entrypoint`,
write the source once to a digest-named module (no rewrite when the file
exists), record the resolved reference under `kind` in `materialized`, and
return `ops_pkg.gen_<digest>:<entrypoint class>`; otherwise require the
declared operator reference. -/
def materialize_generated (hashStr : String → String) (kind : String)
    (generated : Option GeneratedOperator) (fallback : Option String)
    (st : CompSt) : Except Err (String × CompSt) :=
  match generated with
  | some g =>
    if g.code ≠ "" && g.entrypoint ≠ "" then
      let d := hashStr g.code
      let moduleName := "gen_" ++ d
      let ops' := match List.lookup d st.ops with
        | some _ => st.ops
        | none => (d, g.code) :: st.ops
      let resolved := "ops_pkg." ++ moduleName ++ ":" ++ epClass g.entrypoint
      .ok (resolved, ⟨ops', (kind, resolved) :: st.materialized⟩)
    else matFallback kind fallback st
  | none => matFallback kind fallback st

/-- The map-task list comprehension: one `materialize_generated("map", ...)`
call per enumerated shard, threading the ops directory state. -/
def buildMaps (hashStr : String → String) (generated : Option GeneratedOperator)
    (fallback : Option String) : List Json → Nat → CompSt →
    Except Err (List MapTask × CompSt)
  | [], _, st => .ok ([], st)
  | shard :: rest, i, st =>
    match materialize_generated hashStr "map" generated fallback st with
    | .error e => .error e
    | .ok (op, st') =>
      match buildMaps hashStr generated fallback rest (i + 1) st' with
      | .error e => .error e
      | .ok (tasks, st'') => .ok (⟨op, i, shard⟩ :: tasks, st'')

/-- The constant policy report of `compile_job`. -/
def policyReport : Json :=
  .obj (objOfList [
    ("egress_allowed", .bool false),
    ("caps", .obj (objOfList [
      ("workers", .null), ("time_s", .null), ("mem_mb", .null)])),
    ("status", .str "ok")])

/-- `compile_job`: sort shards ascending by content digest, assign
`shard_id` by enumeration order, materialize generated operators (map once
per shard, then reduce, then produce), derive the seed from the unmodified
job, and emit IR, manifest and policy report.  `st0` is the incoming
`.mrp/ops_pkg` state. -/
def compile_job (hashJson : Json → String) (hashStr : String → String)
    (job : JobSpec) (st0 : CompSt) :
    Except Err (IR × Manifest × Json × CompSt) :=
  match buildMaps hashStr job.map.generated job.map.operator
      (sortByKey (fun s => strKey (hashJson (normJson s))) job.map.shards) 0 st0 with
  | .error e => .error e
  | .ok (maps, st1) =>
    match materialize_generated hashStr "reduce" job.reduce.generated
        job.reduce.operator st1 with
    | .error e => .error e
    | .ok (reduce_op, st2) =>
      match materialize_generated hashStr "produce" job.produce.generated
          job.produce.operator st2 with
      | .error e => .error e
      | .ok (produce_op, st3) =>
        let reduce_task : ReduceTask := ⟨reduce_op, job.reduce.config⟩
        let produce_task : ProduceTask := ⟨produce_op, job.produce.config⟩
        let seed := derive_seed hashJson job
        let manifest : Manifest :=
          { job_id := job.job_id
            seed := seed
            opMap := (List.lookup "map" st3.materialized).orElse fun _ => job.map.operator
            opReduce := (List.lookup "reduce" st3.materialized).orElse fun _ => job.reduce.operator
            opProduce := (List.lookup "produce" st3.materialized).orElse fun _ => job.produce.operator }
        .ok (⟨maps, reduce_task, produce_task, manifest⟩, manifest, policyReport, st3)

/-! ## Local backend (`src/mrp/runtime/local.py`)

Operator resolution (`_load` + instantiation) is modeled by three resolver
environments mapping an operator reference string to the behavior of the
loaded class's `run` method.  The worker pool's nondeterministic
`as_completed` order is the explicit `arrival` list (a permutation of
`ir.maps` in any actual execution); `datetime.utcnow().strftime(...)` is the
explicit `timestamp` argument. -/

/-- Behavior of a map operator (`AgentBase.run(params, seed)`). -/
abbrev AgentEnv := String → Json → String → Json

/-- Behavior of a reduce operator (`ReducerBase.run(inputs, seed)`). -/
abbrev ReducerEnv := String → List Json → String → Json

/-- Behavior of a produce operator (`ProducerBase.run(result, seed)`). -/
abbrev ProducerEnv := String → Json → String → Json

/-- `r.get("_shard_id", 0)`: the sort key of a collected map result.
A missing key (or a non-dict result) yields the default `0`; the engine
only ever compares these keys as integers. -/
def getShardKey : Json → Int
  | .obj kvs =>
    match objLookup kvs "_shard_id" with
    | some (.num n) => n
    | some _ => 0
    | none => 0
  | _ => 0

/-- The run record dict of the local backend. -/
structure RunRecord where
  backend : String
  output_dir : String
  maps : List Json
  reduceOut : Json
  produceOut : Json
  deriving DecidableEq, Repr

/-- The dict that `run_ir` passes to `put_json`. -/
def RunRecord.toJson (r : RunRecord) : Json :=
  .obj (objOfList [
    ("backend", .str r.backend),
    ("output_dir", .str r.output_dir),
    ("maps", .arr (arrOfList r.maps)),
    ("reduce", r.reduceOut),
    ("produce", r.produceOut)])

/-- Result of `run_ir`: the returned `{"run_digest": ..., "record": ...}`. -/
structure RunOut where
  run_digest : String
  record : RunRecord
  deriving DecidableEq, Repr

/-- `run_ir`: resolve the three operators from the manifest, apply the map
operator to each task's `params` (collecting in completion order), sort the
collected results by their embedded `_shard_id`, run reduce then produce
once each, persist the run record, and return its digest. -/
def run_ir (hashJson : Json → String) (A : AgentEnv) (R : ReducerEnv)
    (P : ProducerEnv) (ir : IR) (timestamp : String) (arrival : List MapTask)
    (store : Store) : Except Err (RunOut × Store) :=
  match ir.manifest.opMap, ir.manifest.opReduce, ir.manifest.opProduce with
  | some mref, some rref, some pref =>
    let seed := ir.manifest.seed
    let results := arrival.map fun t => A mref t.params seed
    let results_sorted := sortByKey getShardKey results
    let reduce_out := R rref results_sorted seed
    let output_dir := ".mrp/outputs/" ++ ir.manifest.job_id ++ "/" ++ timestamp
    let produce_out := P pref reduce_out seed
    let record : RunRecord := ⟨"local", output_dir, results_sorted, reduce_out, produce_out⟩
    let dstore := put_json hashJson record.toJson store
    .ok (⟨dstore.1, record⟩, dstore.2)
  | _, _, _ => .error (.resolutionError "operator reference is None")

/-! ## Remote sandbox output scanning
(`_daytona_remote_run` in `src/mrp/runtime/backends/cloud_sandbox.py`)

The sandbox interaction is opaque; what the source defines is how the
combined output text and exit code are turned into a map result.  JSON
parsing (`json.loads`) is modeled by a `parse` parameter; Python
`str.splitlines` / `str.strip` by a newline split and `String.trim`. -/

/-- The scan loop: walk the lines from the end, skip blank lines, return
the first (i.e. last) line that parses. -/
def lastJsonLine (parse : String → Option Json) (text : String) : Option Json :=
  (text.splitOn "\n").reverse.findSome? fun line =>
    let l := line.trim
    if l = "" then none else parse l

/-- Result processing of `_daytona_remote_run`: a nonzero exit code or the
absence of a parsable line is fatal for the run. -/
def daytonaProcessOutput (parse : String → Option Json) (exitCode : Int)
    (text : String) : Except Err Json :=
  if exitCode ≠ 0 then
    .error (.remoteExecutionError "Remote execution failed")
  else
    match lastJsonLine parse text with
    | some v => .ok v
    | none => .error (.remoteExecutionError "Remote execution did not yield JSON")

/-! ## Concrete digest stand-ins

The abstract `hashJson`/`hashStr` parameters model blake3 hex digests.  For
concrete evaluations (witnesses and counterexamples) we instantiate them
with a plain textual serialization — any function works for the theorems,
and this one separates every pair of documents we evaluate on. -/

mutual
/-- Compact textual serialization of a document (a concrete instance for
the digest parameters; not a claim about orjson's exact byte syntax). -/
def encodeDoc : Json → String
  | .null => "null"
  | .bool true => "true"
  | .bool false => "false"
  | .num n => toString n
  | .str s => "\"" ++ s ++ "\""
  | .arr xs => "[" ++ encodeArrDoc xs ++ "]"
  | .obj kvs => "\x7b" ++ encodeObjDoc kvs ++ "\x7d"

/-- Serialize array elements, comma separated. -/
def encodeArrDoc : JsonArr → String
  | .nil => ""
  | .cons x .nil => encodeDoc x
  | .cons x (.cons y tl) => encodeDoc x ++ "," ++ encodeArrDoc (.cons y tl)

/-- Serialize object entries, comma separated. -/
def encodeObjDoc : JsonObj → String
  | .nil => ""
  | .cons k v .nil => "\"" ++ k ++ "\":" ++ encodeDoc v
  | .cons k v (.cons k' v' tl) =>
    "\"" ++ k ++ "\":" ++ encodeDoc v ++ "," ++ encodeObjDoc (.cons k' v' tl)
end

/-- True exactly on `Except.ok` results. -/
def isOkB {α : Type} : Except Err α → Bool
  | .ok _ => true
  | .error _ => false

/-- True exactly on `ValidationError` results. -/
def isValidationErrorB {α : Type} : Except Err α → Bool
  | .error (.validationError _) => true
  | _ => false

/-- C10: `derive_seed` reads only the version, the job id, the shard list
and the three declared operator reference fields; two job descriptions that
agree on those but carry arbitrarily different inline generated operators
(source text and entrypoint alike) derive the identical seed. -/
theorem seed_independent_of_generated_source (hashJson : Json → String)
    (v id : String) (sh : List Json) (mo ro po : Option String)
    (g1 g2 g3 g1' g2' g3' : Option GeneratedOperator) (rc pc : Json) :
    derive_seed hashJson ⟨v, id, ⟨mo, g1, sh⟩, ⟨ro, g2, rc⟩, ⟨po, g3, pc⟩⟩ =
      derive_seed hashJson ⟨v, id, ⟨mo, g1', sh⟩, ⟨ro, g2', rc⟩, ⟨po, g3', pc⟩⟩ :=
  rfl

/-- C5: round-trip and idempotence of the content-addressed store.  Writing
`x` makes `get` at the returned digest yield a document Python-equal to `x`
(its canonical form); a second `put` of `x` returns the same digest and
leaves the store untouched (no second write); and no existing blob is ever
overwritten (shown for an arbitrary pre-existing entry `d' ↦ v`; the
`hclean` hypothesis is the store's self-verifying-content invariant: a blob
already sitting at `x`'s digest holds `x`'s canonical bytes). -/
theorem store_put_get_roundtrip_idempotent (hashJson : Json → String)
    (x : Json) (st : Store) (d' : String) (v : Json)
    (hprev : List.lookup d' st = some v)
    (hclean : ∀ w, List.lookup (digest_json hashJson x) st = some w → w = normJson x) :
    get_json (put_json hashJson x st).2 (put_json hashJson x st).1 = some (normJson x)
    ∧ pyEq (normJson x) x
    ∧ put_json hashJson x (put_json hashJson x st).2 = put_json hashJson x st
    ∧ get_json (put_json hashJson x st).2 d' = some v := by
  cases hx : List.lookup (digest_json hashJson x) st with
  | some w =>
    have hw : w = normJson x := hclean w hx
    subst hw
    refine ⟨?_, normJson_idem x, ?_, ?_⟩
    · simp [put_json, get_json, hx]
    · simp [put_json, hx]
    · simp [put_json, get_json, hx, hprev]
  | none =>
    have hne : digest_json hashJson x ≠ d' := by
      intro h
      rw [h, hprev] at hx
      exact Option.noConfusion hx
    have hbe : (d' == digest_json hashJson x) = false :=
      beq_eq_false_iff_ne.2 (Ne.symm hne)
    refine ⟨?_, normJson_idem x, ?_, ?_⟩
    · simp [put_json, get_json, hx]
    · simp [put_json, hx]
    · simp [put_json, get_json, hx, List.lookup, hbe, hprev]

/-- Witness for C5 at a concrete document, store and pre-existing entry. -/
theorem store_put_get_roundtrip_idempotent_witness :
    (List.lookup "k0" [("k0", Json.num 7)] = some (Json.num 7))
    ∧ (get_json (put_json encodeDoc (Json.str "doc") [("k0", Json.num 7)]).2
        (put_json encodeDoc (Json.str "doc") [("k0", Json.num 7)]).1
          = some (normJson (Json.str "doc"))
      ∧ pyEq (normJson (Json.str "doc")) (Json.str "doc")
      ∧ put_json encodeDoc (Json.str "doc")
          (put_json encodeDoc (Json.str "doc") [("k0", Json.num 7)]).2
          = put_json encodeDoc (Json.str "doc") [("k0", Json.num 7)]
      ∧ get_json (put_json encodeDoc (Json.str "doc") [("k0", Json.num 7)]).2 "k0"
          = some (Json.num 7)) :=
  ⟨by decide,
   store_put_get_roundtrip_idempotent encodeDoc (Json.str "doc")
     [("k0", Json.num 7)] "k0" (Json.num 7) (by decide)
     (fun w hw => by
       have hnone : List.lookup (digest_json encodeDoc (Json.str "doc"))
           [("k0", Json.num 7)] = none := by decide
       rw [hnone] at hw
       cases hw)⟩

/-- Any successful `materialize_generated` call leaves every existing unit
of the ops directory intact (write-once discipline). -/
theorem materialize_preserves_ops (hashStr : String → String) (kind : String)
    (gen : Option GeneratedOperator) (fb : Option String) (st : CompSt)
    (r' : String) (st'' : CompSt)
    (h : materialize_generated hashStr kind gen fb st = .ok (r', st''))
    (d : String) (c : String) (hd : List.lookup d st.ops = some c) :
    List.lookup d st''.ops = some c := by
  have hfall : ∀ k₀, matFallback k₀ fb st = .ok (r', st'') →
      List.lookup d st''.ops = some c := by
    intro k₀ hm
    cases fb with
    | none => simp [matFallback] at hm
    | some f =>
      simp only [matFallback] at hm
      by_cases hf : f = ""
      · rw [if_pos hf] at hm
        exact absurd hm (by simp)
      · rw [if_neg hf] at hm
        cases hm
        exact hd
  cases gen with
  | none =>
    simp only [materialize_generated] at h
    exact hfall kind h
  | some g =>
    simp only [materialize_generated] at h
    by_cases hcond : (g.code ≠ "" && g.entrypoint ≠ "") = true
    · rw [if_pos hcond] at h
      cases hl : List.lookup (hashStr g.code) st.ops with
      | some c₀ =>
        rw [hl] at h
        cases h
        exact hd
      | none =>
        rw [hl] at h
        cases h
        have hne : (d == hashStr g.code) = false := by
          refine beq_eq_false_iff_ne.2 fun hde => ?_
          rw [hde, hl] at hd
          exact Option.noConfusion hd
        simpa [List.lookup, hne] using hd
    · rw [if_neg hcond] at h
      exact hfall kind h

/-- C6: materialization is idempotent.  With truthy inline source a first
call materializes and returns a resolved reference `r`; a second call with
byte-identical source — from any stage kind, with any fallback, as in a
later job sharing the ops directory — returns the same `r` and performs no
write (the ops directory is unchanged); the first call wrote at most the
single digest-named unit; and no call whatsoever rewrites an existing unit. -/
theorem materialize_idempotent_no_rewrite (hashStr : String → String)
    (k1 k2 : String) (f1 f2 : Option String) (g : GeneratedOperator)
    (st : CompSt) (hcode : g.code ≠ "") (hep : g.entrypoint ≠ "") :
    ∃ r st₁,
      materialize_generated hashStr k1 (some g) f1 st = .ok (r, st₁)
      ∧ materialize_generated hashStr k2 (some g) f2 st₁
          = .ok (r, ⟨st₁.ops, (k2, r) :: st₁.materialized⟩)
      ∧ (st₁.ops = st.ops ∨ st₁.ops = (hashStr g.code, g.code) :: st.ops)
      ∧ (∀ kind gen fb st' r' st'' d c,
          materialize_generated hashStr kind gen fb st' = .ok (r', st'') →
          List.lookup d st'.ops = some c → List.lookup d st''.ops = some c) := by
  have hcond : (g.code ≠ "" && g.entrypoint ≠ "") = true := by
    simp [hcode, hep]
  have hpres : ∀ kind gen fb st' r' st'' d c,
      materialize_generated hashStr kind gen fb st' = .ok (r', st'') →
      List.lookup d st'.ops = some c → List.lookup d st''.ops = some c :=
    fun kind gen fb st' r' st'' d c h hd =>
      materialize_preserves_ops hashStr kind gen fb st' r' st'' h d c hd
  cases hl : List.lookup (hashStr g.code) st.ops with
  | some c₀ =>
    refine ⟨"ops_pkg." ++ ("gen_" ++ hashStr g.code) ++ ":" ++ epClass g.entrypoint,
      ⟨st.ops,
        (k1, "ops_pkg." ++ ("gen_" ++ hashStr g.code) ++ ":" ++ epClass g.entrypoint)
          :: st.materialized⟩, ?_, ?_, Or.inl rfl, hpres⟩
    · simp only [materialize_generated, if_pos hcond, hl]
    · simp only [materialize_generated, if_pos hcond, hl]
  | none =>
    refine ⟨"ops_pkg." ++ ("gen_" ++ hashStr g.code) ++ ":" ++ epClass g.entrypoint,
      ⟨(hashStr g.code, g.code) :: st.ops,
        (k1, "ops_pkg." ++ ("gen_" ++ hashStr g.code) ++ ":" ++ epClass g.entrypoint)
          :: st.materialized⟩, ?_, ?_, Or.inr rfl, hpres⟩
    · simp only [materialize_generated, if_pos hcond, hl]
    · simp only [materialize_generated, if_pos hcond, List.lookup, beq_self_eq_true]

/-- Witness for C6 at a concrete generated operator and empty ops dir. -/
theorem materialize_idempotent_no_rewrite_witness :
    (GeneratedOperator.code ⟨"print(1)", "m:Cls"⟩ ≠ ""
      ∧ GeneratedOperator.entrypoint ⟨"print(1)", "m:Cls"⟩ ≠ "")
    ∧ (∃ r st₁,
        materialize_generated (fun s => s) "map" (some ⟨"print(1)", "m:Cls"⟩)
          none ⟨[], []⟩ = .ok (r, st₁)
        ∧ materialize_generated (fun s => s) "reduce" (some ⟨"print(1)", "m:Cls"⟩)
            (some "legacy") st₁ = .ok (r, ⟨st₁.ops, ("reduce", r) :: st₁.materialized⟩)
        ∧ (st₁.ops = CompSt.ops ⟨[], []⟩
            ∨ st₁.ops = ((fun s => s) "print(1)", "print(1)") :: CompSt.ops ⟨[], []⟩)
        ∧ (∀ kind gen fb st' r' st'' d c,
            materialize_generated (fun s => s) kind gen fb st' = .ok (r', st'') →
            List.lookup d st'.ops = some c → List.lookup d st''.ops = some c)) :=
  ⟨⟨by decide, by decide⟩,
   materialize_idempotent_no_rewrite (fun s => s) "map" "reduce" none
     (some "legacy") ⟨"print(1)", "m:Cls"⟩ ⟨[], []⟩ (by decide) (by decide)⟩

theorem findSome?_append_eq {α β : Type} (f : α → Option β) :
    ∀ l₁ l₂ : List α, (l₁ ++ l₂).findSome? f =
      match l₁.findSome? f with
      | some b => some b
      | none => l₂.findSome? f
  | [], l₂ => rfl
  | x :: xs, l₂ => by
    cases hfx : f x with
    | some b => simp [List.findSome?, hfx]
    | none => simp [List.findSome?, hfx, findSome?_append_eq f xs l₂]

theorem getLast?_cons_of_ne_nil {α : Type} (a : α) :
    ∀ l : List α, l ≠ [] → (a :: l).getLast? = l.getLast?
  | [], h => absurd rfl h
  | _ :: _, _ => List.getLast?_cons_cons ..

/-- Scanning the lines from the end for the first parsable one returns the
parse of the last parsable line in document order. -/
theorem findSome?_reverse_eq_getLast?_filterMap {α β : Type} (f : α → Option β) :
    ∀ l : List α, l.reverse.findSome? f = (l.filterMap f).getLast?
  | [] => rfl
  | x :: xs => by
    rw [List.reverse_cons, findSome?_append_eq f xs.reverse [x],
      findSome?_reverse_eq_getLast?_filterMap f xs]
    cases hgl : (xs.filterMap f).getLast? with
    | some b =>
      have hne : xs.filterMap f ≠ [] := by
        intro h
        rw [h] at hgl
        exact Option.noConfusion hgl
      cases hfx : f x with
      | some c => simp [List.filterMap_cons, hfx, getLast?_cons_of_ne_nil c _ hne, hgl]
      | none => simp [List.filterMap_cons, hfx, hgl]
    | none =>
      have hnil : xs.filterMap f = [] := by
        cases h : xs.filterMap f with
        | nil => rfl
        | cons y ys =>
          rw [h] at hgl
          simp [List.getLast?] at hgl
      cases hfx : f x with
      | some c => simp [List.filterMap_cons, hfx, hnil, List.findSome?, List.getLast?]
      | none => simp [List.filterMap_cons, hfx, hnil, List.findSome?, List.getLast?]

/-- C8: the remote backend's handling of the sandbox's combined output.
A nonzero exit status is a fatal remote-execution error; otherwise the
result is the parse of the last line (in document order) whose stripped
form is nonempty and parses as structured data — arbitrary diagnostic
lines before it are ignored — and the absence of any such line is a fatal
remote-execution error, so no map result is produced for that run. -/
theorem remote_output_scan (parse : String → Option Json) (exitCode : Int)
    (text : String) :
    daytonaProcessOutput parse exitCode text =
      if exitCode ≠ 0 then
        .error (.remoteExecutionError "Remote execution failed")
      else
        match ((text.splitOn "\n").filterMap fun line =>
            let l := line.trim
            if l = "" then none else parse l).getLast? with
        | some v => .ok v
        | none => .error (.remoteExecutionError "Remote execution did not yield JSON") := by
  by_cases hz : exitCode ≠ 0
  · simp [daytonaProcessOutput, hz]
  · simp only [daytonaProcessOutput, if_neg hz]
    rw [lastJsonLine, findSome?_reverse_eq_getLast?_filterMap]

theorem exbind_ok {α β : Type} (a : α) (f : α → Except Err β) :
    (Except.ok a >>= f) = f a := rfl

theorem exbind_error {α β : Type} (e : Err) (f : α → Except Err β) :
    ((Except.error e : Except Err α) >>= f) = .error e := rfl

/-- Successful compilation decomposes into its three materialization steps
and fully determines plan, manifest (seed in particular) and policy. -/
theorem compile_job_ok_elim (hJ : Json → String) (hS : String → String)
    (job : JobSpec) (st : CompSt) (ir : IR) (m : Manifest) (p : Json)
    (st' : CompSt) (h : compile_job hJ hS job st = .ok (ir, m, p, st')) :
    ∃ maps st1 rop st2 pop,
      buildMaps hS job.map.generated job.map.operator
        (sortByKey (fun s => strKey (hJ (normJson s))) job.map.shards) 0 st = .ok (maps, st1)
      ∧ materialize_generated hS "reduce" job.reduce.generated job.reduce.operator st1
          = .ok (rop, st2)
      ∧ materialize_generated hS "produce" job.produce.generated job.produce.operator st2
          = .ok (pop, st')
      ∧ m = ⟨job.job_id, derive_seed hJ job,
          (List.lookup "map" st'.materialized).orElse (fun _ => job.map.operator),
          (List.lookup "reduce" st'.materialized).orElse (fun _ => job.reduce.operator),
          (List.lookup "produce" st'.materialized).orElse (fun _ => job.produce.operator)⟩
      ∧ ir = ⟨maps, ⟨rop, job.reduce.config⟩, ⟨pop, job.produce.config⟩, m⟩
      ∧ p = policyReport := by
  rw [compile_job] at h
  split at h
  · exact absurd h (by simp)
  · rename_i maps st1 hbm
    split at h
    · exact absurd h (by simp)
    · rename_i rop st2 hred
      split at h
      · exact absurd h (by simp)
      · rename_i pop st3 hprod
        simp only [Except.ok.injEq, Prod.mk.injEq] at h
        obtain ⟨hir, hm, hp, hst⟩ := h
        subst hst
        exact ⟨maps, st1, rop, st2, pop, hbm, hred, hprod,
          hm.symm, by rw [← hir, ← hm], hp.symm⟩

/-- C4: the manifest's seed is the digest of the canonical encoding of the
payload `{version, job_id, shards in original order, declared operator
identifiers}`.  It is independent of the materialization state (any two
successful compilations of the same job agree on it) and of the inline
generated operators (pre-materialization identifiers only); it is taken
from the unsorted shard list, so the compiler's deterministic shard
reordering never feeds back into it. -/
theorem manifest_seed_characterization (hJ : Json → String)
    (hS : String → String) (job : JobSpec) (st : CompSt) (ir : IR)
    (m : Manifest) (p : Json) (st' : CompSt)
    (h : compile_job hJ hS job st = .ok (ir, m, p, st')) :
    m.seed = hJ (normJson (seedPayload job))
    ∧ ir.manifest.seed = m.seed
    ∧ (∀ st₂ ir₂ m₂ p₂ st₂',
        compile_job hJ hS job st₂ = .ok (ir₂, m₂, p₂, st₂') → m₂.seed = m.seed)
    ∧ (∀ g1 g2 g3,
        derive_seed hJ ⟨job.version, job.job_id,
          ⟨job.map.operator, g1, job.map.shards⟩,
          ⟨job.reduce.operator, g2, job.reduce.config⟩,
          ⟨job.produce.operator, g3, job.produce.config⟩⟩ = m.seed) := by
  obtain ⟨maps, st1, rop, st2, pop, hbm, hred, hprod, hm, hir, hp⟩ :=
    compile_job_ok_elim hJ hS job st ir m p st' h
  have hseed : m.seed = derive_seed hJ job := by rw [hm]
  refine ⟨hseed, by rw [hir, hm], ?_, ?_⟩
  · intro st₂ ir₂ m₂ p₂ st₂' h₂
    obtain ⟨_, _, _, _, _, _, _, _, hm₂, _, _⟩ :=
      compile_job_ok_elim hJ hS job st₂ ir₂ m₂ p₂ st₂' h₂
    rw [hm₂, hseed]
  · intro g1 g2 g3
    rw [hseed]
    obtain ⟨v, id, ⟨mo, gm, sh⟩, ⟨ro, gr, rc⟩, ⟨po, gp, pc⟩⟩ := job
    rfl

/-- Fixture: a job description with declared operator references only. -/
def jobRefs : JobSpec :=
  ⟨"v0", "toy",
    ⟨some "examples.toy:UppercaseAgent", none,
      [.obj (.cons "text" (.str "a") .nil), .obj (.cons "text" (.str "b") .nil)]⟩,
    ⟨some "examples.toy:ConcatReducer", none, .obj .nil⟩,
    ⟨some "examples.toy:JsonProducer", none, .obj .nil⟩⟩

/-- Extract the payload of a successful computation, with a fallback. -/
def okOr {α : Type} (d : α) : Except Err α → α
  | .ok a => a
  | .error _ => d

/-- Fixture: the compilation of `jobRefs` under the concrete digests. -/
def compRefs : Except Err (IR × Manifest × Json × CompSt) :=
  compile_job encodeDoc (fun s => s) jobRefs ⟨[], []⟩

/-- Fixture: a fallback IR for extraction. -/
def dummyIR : IR :=
  ⟨[], ⟨"", .obj .nil⟩, ⟨"", .obj .nil⟩, ⟨"", "", none, none, none⟩⟩

/-- Fixture: the compiled plan of `jobRefs`. -/
def irRefs : IR := okOr dummyIR (compRefs.map fun x => x.1)

/-- Fixture: the manifest of `jobRefs`. -/
def mRefs : Manifest := okOr ⟨"", "", none, none, none⟩ (compRefs.map fun x => x.2.1)

/-- Fixture: the compiler state after compiling `jobRefs`. -/
def stRefs : CompSt := okOr ⟨[], []⟩ (compRefs.map fun x => x.2.2.2)

/-- Witness for C4 at the concrete `jobRefs` compilation. -/
theorem manifest_seed_characterization_witness :
    (compile_job encodeDoc (fun s => s) jobRefs ⟨[], []⟩
        = .ok (irRefs, mRefs, policyReport, stRefs))
    ∧ (mRefs.seed = encodeDoc (normJson (seedPayload jobRefs))
      ∧ irRefs.manifest.seed = mRefs.seed
      ∧ (∀ st₂ ir₂ m₂ p₂ st₂',
          compile_job encodeDoc (fun s => s) jobRefs st₂ = .ok (ir₂, m₂, p₂, st₂') →
            m₂.seed = mRefs.seed)
      ∧ (∀ g1 g2 g3,
          derive_seed encodeDoc ⟨jobRefs.version, jobRefs.job_id,
            ⟨jobRefs.map.operator, g1, jobRefs.map.shards⟩,
            ⟨jobRefs.reduce.operator, g2, jobRefs.reduce.config⟩,
            ⟨jobRefs.produce.operator, g3, jobRefs.produce.config⟩⟩ = mRefs.seed)) :=
  ⟨by rfl,
   manifest_seed_characterization encodeDoc (fun s => s) jobRefs ⟨[], []⟩
     irRefs mRefs policyReport stRefs (by rfl)⟩

/-- The generated-operator branch of `materialize_generated` is taken:
a present generated operator with truthy source and entrypoint. -/
def genTruthy : Option GeneratedOperator → Prop :=
  fun gen => ∃ g, gen = some g ∧ g.code ≠ "" ∧ g.entrypoint ≠ ""

/-- A declared operator reference that Python treats as truthy. -/
def refTruthy : Option String → Prop :=
  fun op => ∃ f, op = some f ∧ f ≠ ""

theorem materialize_error_validation (hashStr : String → String) (kind : String)
    (gen : Option GeneratedOperator) (fb : Option String) (st : CompSt) (e : Err)
    (h : materialize_generated hashStr kind gen fb st = .error e) :
    e = .validationError kind := by
  have hfall : ∀ k₀, matFallback k₀ fb st = Except.error e → e = Err.validationError k₀ := by
    intro k₀ hm
    cases fb with
    | none =>
      simp only [matFallback, Except.error.injEq] at hm
      exact hm.symm
    | some f =>
      simp only [matFallback] at hm
      by_cases hf : f = ""
      · rw [if_pos hf] at hm
        exact (Except.error.injEq .. ▸ hm :).symm
      · rw [if_neg hf] at hm
        exact absurd hm (by simp)
  cases gen with
  | none =>
    simp only [materialize_generated] at h
    exact hfall kind h
  | some g =>
    simp only [materialize_generated] at h
    by_cases hcond : (g.code ≠ "" && g.entrypoint ≠ "") = true
    · rw [if_pos hcond] at h
      cases hl : List.lookup (hashStr g.code) st.ops <;> rw [hl] at h <;>
        exact absurd h (by simp)
    · rw [if_neg hcond] at h
      exact hfall kind h

theorem materialize_ok_of_truthy (hashStr : String → String) (kind : String)
    (gen : Option GeneratedOperator) (fb : Option String) (st : CompSt)
    (h : genTruthy gen ∨ refTruthy fb) :
    ∃ r st', materialize_generated hashStr kind gen fb st = .ok (r, st') := by
  have hgen : ∀ g : GeneratedOperator, g.code ≠ "" → g.entrypoint ≠ "" →
      ∃ r st', materialize_generated hashStr kind (some g) fb st = .ok (r, st') := by
    intro g hc he
    have hcond : (g.code ≠ "" && g.entrypoint ≠ "") = true := by simp [hc, he]
    cases hl : List.lookup (hashStr g.code) st.ops with
    | some c₀ =>
      refine ⟨"ops_pkg." ++ ("gen_" ++ hashStr g.code) ++ ":" ++ epClass g.entrypoint,
        ⟨st.ops, (kind, "ops_pkg." ++ ("gen_" ++ hashStr g.code) ++ ":"
          ++ epClass g.entrypoint) :: st.materialized⟩, ?_⟩
      simp only [materialize_generated, if_pos hcond, hl]
    | none =>
      refine ⟨"ops_pkg." ++ ("gen_" ++ hashStr g.code) ++ ":" ++ epClass g.entrypoint,
        ⟨(hashStr g.code, g.code) :: st.ops,
          (kind, "ops_pkg." ++ ("gen_" ++ hashStr g.code) ++ ":"
            ++ epClass g.entrypoint) :: st.materialized⟩, ?_⟩
      simp only [materialize_generated, if_pos hcond, hl]
  have hfall : refTruthy fb → ∀ k₀, ∃ r st', matFallback k₀ fb st = .ok (r, st') := by
    rintro ⟨f, rfl, hf⟩ k₀
    exact ⟨f, st, by simp [matFallback, hf]⟩
  rcases h with ⟨g, rfl, hc, he⟩ | href
  · exact hgen g hc he
  · cases gen with
    | none =>
      obtain ⟨r, st', hr⟩ := hfall href kind
      exact ⟨r, st', by simpa [materialize_generated] using hr⟩
    | some g =>
      by_cases hcond : (g.code ≠ "" && g.entrypoint ≠ "") = true
      · have hc : g.code ≠ "" := by
          rcases Bool.and_eq_true .. ▸ hcond with ⟨h1, h2⟩
          exact of_decide_eq_true h1
        have he : g.entrypoint ≠ "" := by
          rcases Bool.and_eq_true .. ▸ hcond with ⟨h1, h2⟩
          exact of_decide_eq_true h2
        exact hgen g hc he
      · obtain ⟨r, st', hr⟩ := hfall href kind
        refine ⟨r, st', ?_⟩
        simp only [materialize_generated]
        rw [if_neg hcond]
        exact hr

theorem buildMaps_error_validation (hashStr : String → String)
    (gen : Option GeneratedOperator) (fb : Option String) :
    ∀ (l : List Json) (i : Nat) (st : CompSt) (e : Err),
      buildMaps hashStr gen fb l i st = .error e → e = .validationError "map"
  | [], _, _, _, h => absurd h (by simp [buildMaps])
  | shard :: rest, i, st, e, h => by
    rw [buildMaps] at h
    split at h
    · rename_i e' hmat
      cases h
      exact materialize_error_validation hashStr "map" gen fb st e hmat
    · rename_i op st' hmat
      split at h
      · rename_i e' hrec
        cases h
        exact buildMaps_error_validation hashStr gen fb rest (i + 1) st' e hrec
      · exact absurd h (by simp)

theorem buildMaps_ok_of_truthy (hashStr : String → String)
    (gen : Option GeneratedOperator) (fb : Option String)
    (h : genTruthy gen ∨ refTruthy fb) :
    ∀ (l : List Json) (i : Nat) (st : CompSt),
      ∃ tasks st', buildMaps hashStr gen fb l i st = .ok (tasks, st')
  | [], i, st => ⟨[], st, by simp [buildMaps]⟩
  | shard :: rest, i, st => by
    obtain ⟨r, st', hmat⟩ := materialize_ok_of_truthy hashStr "map" gen fb st h
    obtain ⟨tasks, st'', hrec⟩ := buildMaps_ok_of_truthy hashStr gen fb h rest (i + 1) st'
    exact ⟨⟨r, i, shard⟩ :: tasks, st'', by simp only [buildMaps, hmat, hrec]⟩

theorem sortByKey_ne_nil {α β : Type} [LinearOrder β] (k : α → β)
    (l : List α) (h : l ≠ []) : sortByKey k l ≠ [] := by
  intro hs
  have hp := sortByKey_perm k l
  rw [hs] at hp
  exact h (List.Perm.nil_eq hp).symm

/-- C7 (amended): stage validation happens inside `materialize_generated`,
which the compiler runs once per map shard and once each for reduce and
produce.  A reduce or produce stage lacking both an operator reference and
generated source makes compilation fail with a `ValidationError` and no
plan; so does a map stage lacking both, provided the shard list is
nonempty — with an empty shard list the map stage's check never runs and
such a job compiles (see the counterexample).  A stage with only a
(truthy) reference gets it back unchanged, and a job whose three stages
each carry truthy generated source or a truthy reference compiles. -/
theorem compile_validation (hJ : Json → String) (hS : String → String)
    (job : JobSpec) (st : CompSt) :
    (((job.reduce.operator = none ∧ job.reduce.generated = none)
      ∨ (job.produce.operator = none ∧ job.produce.generated = none)
      ∨ (job.map.operator = none ∧ job.map.generated = none ∧ job.map.shards ≠ [])) →
      isValidationErrorB (compile_job hJ hS job st) = true)
    ∧ (∀ kind f st₀, f ≠ "" →
        materialize_generated hS kind none (some f) st₀ = .ok (f, st₀))
    ∧ ((genTruthy job.map.generated ∨ refTruthy job.map.operator) →
       (genTruthy job.reduce.generated ∨ refTruthy job.reduce.operator) →
       (genTruthy job.produce.generated ∨ refTruthy job.produce.operator) →
        isOkB (compile_job hJ hS job st) = true) := by
  refine ⟨?_, ?_, ?_⟩
  · rintro (⟨h1, h2⟩ | ⟨h1, h2⟩ | ⟨h1, h2, h3⟩)
    · cases hbm : buildMaps hS job.map.generated job.map.operator
          (sortByKey (fun s => strKey (hJ (normJson s))) job.map.shards) 0 st with
      | error e =>
        have he := buildMaps_error_validation hS job.map.generated job.map.operator
          _ 0 st e hbm
        subst he
        simp [compile_job, hbm, isValidationErrorB]
      | ok pr =>
        obtain ⟨tasks, st1⟩ := pr
        have hred : materialize_generated hS "reduce" job.reduce.generated
            job.reduce.operator st1 = .error (.validationError "reduce") := by
          rw [h1, h2]
          simp [materialize_generated, matFallback]
        simp [compile_job, hbm, hred, isValidationErrorB]
    · cases hbm : buildMaps hS job.map.generated job.map.operator
          (sortByKey (fun s => strKey (hJ (normJson s))) job.map.shards) 0 st with
      | error e =>
        have he := buildMaps_error_validation hS job.map.generated job.map.operator
          _ 0 st e hbm
        subst he
        simp [compile_job, hbm, isValidationErrorB]
      | ok pr =>
        obtain ⟨tasks, st1⟩ := pr
        cases hred : materialize_generated hS "reduce" job.reduce.generated
            job.reduce.operator st1 with
        | error e =>
          have he := materialize_error_validation hS "reduce" job.reduce.generated
            job.reduce.operator st1 e hred
          subst he
          simp [compile_job, hbm, hred, isValidationErrorB]
        | ok pr2 =>
          obtain ⟨rop, st2⟩ := pr2
          have hprod : materialize_generated hS "produce" job.produce.generated
              job.produce.operator st2 = .error (.validationError "produce") := by
            rw [h1, h2]
            simp [materialize_generated, matFallback]
          simp [compile_job, hbm, hred, hprod, isValidationErrorB]
    · have hsne := sortByKey_ne_nil (fun s => strKey (hJ (normJson s))) job.map.shards h3
      obtain ⟨s0, rest, hcons⟩ := List.exists_cons_of_ne_nil hsne
      have hbm : buildMaps hS job.map.generated job.map.operator
          (sortByKey (fun s => strKey (hJ (normJson s))) job.map.shards) 0 st
            = .error (.validationError "map") := by
        rw [hcons, buildMaps, h1, h2]
        simp [materialize_generated, matFallback]
      simp [compile_job, hbm, isValidationErrorB]
  · intro kind f st₀ hf
    simp [materialize_generated, matFallback, hf]
  · intro hmap hred hprod
    obtain ⟨tasks, st1, hbm⟩ := buildMaps_ok_of_truthy hS job.map.generated
      job.map.operator hmap
      (sortByKey (fun s => strKey (hJ (normJson s))) job.map.shards) 0 st
    obtain ⟨rop, st2, hr⟩ := materialize_ok_of_truthy hS "reduce"
      job.reduce.generated job.reduce.operator st1 hred
    obtain ⟨pop, st3, hp⟩ := materialize_ok_of_truthy hS "produce"
      job.produce.generated job.produce.operator st2 hprod
    simp [compile_job, hbm, hr, hp, isOkB]

/-- Fixture: a job whose map stage lacks both operator sources but has no
shards; reduce and produce carry plain references. -/
def jobEmptyMapStage : JobSpec :=
  ⟨"v0", "j-empty", ⟨none, none, []⟩,
    ⟨some "examples.toy:ConcatReducer", none, .obj .nil⟩,
    ⟨some "examples.toy:JsonProducer", none, .obj .nil⟩⟩

/-- C7 counterexample: `jobEmptyMapStage`'s map stage provides neither an
operator reference nor generated source, yet compilation succeeds (no
`ValidationError`), because the map-stage check runs once per shard and the
shard list is empty. -/
theorem compile_missing_map_stage_accepted :
    isOkB (compile_job encodeDoc (fun s => s) jobEmptyMapStage ⟨[], []⟩) = true := by
  rfl

/-- Fixture: a job whose reduce stage lacks both operator sources. -/
def jobMissingReduce : JobSpec :=
  ⟨"v0", "j-nored", ⟨some "examples.toy:UppercaseAgent", none, [.obj .nil]⟩,
    ⟨none, none, .obj .nil⟩,
    ⟨some "examples.toy:JsonProducer", none, .obj .nil⟩⟩

/-- Witness for C7 (amended) at `jobMissingReduce`. -/
theorem compile_validation_witness :
    (jobMissingReduce.reduce.operator = none ∧ jobMissingReduce.reduce.generated = none)
    ∧ isValidationErrorB
        (compile_job encodeDoc (fun s => s) jobMissingReduce ⟨[], []⟩) = true :=
  ⟨⟨rfl, rfl⟩,
   (compile_validation encodeDoc (fun s => s) jobMissingReduce ⟨[], []⟩).1
     (Or.inl ⟨rfl, rfl⟩)⟩

/-- C2: the local backend's final map-result list — the list recorded in
the run record and passed to reduce — is strictly ascending by the
embedded `_shard_id`, for every completion order of the worker pool
(including adversarial ones where the highest shard finishes first),
whenever each map result embeds the shard_id of the task it was computed
for and task shard ids are pairwise distinct (as `compile_job` assigns
them). -/
theorem local_backend_orders_by_shard_id (hJ : Json → String) (A : AgentEnv)
    (R : ReducerEnv) (P : ProducerEnv) (ir : IR) (timestamp : String)
    (arrival : List MapTask) (store : Store) (mref rref pref : String)
    (out : RunOut) (store' : Store)
    (hm : ir.manifest.opMap = some mref) (hr : ir.manifest.opReduce = some rref)
    (hp : ir.manifest.opProduce = some pref)
    (harr : arrival.Perm ir.maps)
    (hembed : ∀ t ∈ ir.maps,
      getShardKey (A mref t.params ir.manifest.seed) = (t.shard_id : Int))
    (hdist : ir.maps.Pairwise fun t u => t.shard_id ≠ u.shard_id)
    (hrun : run_ir hJ A R P ir timestamp arrival store = .ok (out, store')) :
    out.record.maps.Pairwise (fun a b => getShardKey a < getShardKey b)
    ∧ out.record.maps
        = sortByKey getShardKey (arrival.map fun t => A mref t.params ir.manifest.seed)
    ∧ out.record.reduceOut = R rref out.record.maps ir.manifest.seed := by
  simp only [run_ir, hm, hr, hp, Except.ok.injEq, Prod.mk.injEq] at hrun
  obtain ⟨hout, hstore⟩ := hrun
  subst hout
  refine ⟨?_, rfl, rfl⟩
  have hsorted := sortByKey_pairwise getShardKey
    (arrival.map fun t => A mref t.params ir.manifest.seed)
  have hne_maps : (ir.maps.map fun t => A mref t.params ir.manifest.seed).Pairwise
      (fun a b => getShardKey a ≠ getShardKey b) := by
    rw [List.pairwise_map]
    refine hdist.imp_of_mem ?_
    intro t u ht hu htu
    rw [hembed t ht, hembed u hu]
    intro hc
    exact htu (Int.natCast_inj.1 hc)
  have hperm : (sortByKey getShardKey
      (arrival.map fun t => A mref t.params ir.manifest.seed)).Perm
        (ir.maps.map fun t => A mref t.params ir.manifest.seed) :=
    (sortByKey_perm getShardKey _).trans (harr.map _)
  have hne_sorted := (hperm.pairwise_iff fun hab => Ne.symm hab).2 hne_maps
  exact (hsorted.and hne_sorted).imp fun hab => lt_of_le_of_ne hab.1 hab.2

/-- Fixture: a two-task IR with resolved operator references. -/
def irC2 : IR :=
  ⟨[⟨"m", 0, .num 0⟩, ⟨"m", 1, .num 1⟩], ⟨"r", .obj .nil⟩, ⟨"p", .obj .nil⟩,
    ⟨"jid", "seed0", some "m", some "r", some "p"⟩⟩

/-- Fixture: a map operator that embeds its params as `_shard_id`. -/
def agentEmbed : AgentEnv := fun _ p _ => .obj (.cons "_shard_id" p .nil)

/-- Fixture: a reducer returning its ordered input list. -/
def reducerArr : ReducerEnv := fun _ inputs _ => .arr (arrOfList inputs)

/-- Fixture: a pass-through producer. -/
def producerId : ProducerEnv := fun _ x _ => x

/-- Fixture: adversarial completion order — the highest shard_id first. -/
def arrivalC2 : List MapTask := [⟨"m", 1, .num 1⟩, ⟨"m", 0, .num 0⟩]

/-- Fixture: the local run of `irC2` under the adversarial order. -/
def runResC2 : Except Err (RunOut × Store) :=
  run_ir encodeDoc agentEmbed reducerArr producerId irC2 "20260101_000000"
    arrivalC2 []

/-- Fixture: extracted run output of `runResC2`. -/
def outC2 : RunOut := okOr ⟨"", ⟨"", "", [], .null, .null⟩⟩ (runResC2.map fun x => x.1)

/-- Fixture: extracted store state of `runResC2`. -/
def storeC2 : Store := okOr [] (runResC2.map fun x => x.2)

/-- Witness for C2 under the adversarial completion order. -/
theorem local_backend_orders_by_shard_id_witness :
    (irC2.manifest.opMap = some "m"
      ∧ irC2.manifest.opReduce = some "r"
      ∧ irC2.manifest.opProduce = some "p"
      ∧ arrivalC2.Perm irC2.maps
      ∧ (∀ t ∈ irC2.maps,
          getShardKey (agentEmbed "m" t.params irC2.manifest.seed) = (t.shard_id : Int))
      ∧ irC2.maps.Pairwise (fun t u => t.shard_id ≠ u.shard_id)
      ∧ run_ir encodeDoc agentEmbed reducerArr producerId irC2 "20260101_000000"
          arrivalC2 [] = .ok (outC2, storeC2))
    ∧ (outC2.record.maps.Pairwise (fun a b => getShardKey a < getShardKey b)
      ∧ outC2.record.maps = sortByKey getShardKey
          (arrivalC2.map fun t => agentEmbed "m" t.params irC2.manifest.seed)
      ∧ outC2.record.reduceOut = reducerArr "r" outC2.record.maps irC2.manifest.seed) :=
  ⟨⟨rfl, rfl, rfl, by decide, by decide, by decide, by rfl⟩,
    local_backend_orders_by_shard_id encodeDoc agentEmbed reducerArr producerId irC2
      "20260101_000000" arrivalC2 [] "m" "r" "p" outC2 storeC2 rfl rfl rfl
      (by decide) (by decide) (by decide) (by rfl)⟩

/-- Fixture: an IR whose shard params do not carry `_shard_id`. -/
def irC9 : IR :=
  ⟨[⟨"m", 0, .obj (.cons "v" (.num 0) .nil)⟩,
    ⟨"m", 1, .obj (.cons "v" (.num 1) .nil)⟩],
    ⟨"r", .obj .nil⟩, ⟨"p", .obj .nil⟩,
    ⟨"jid", "seed0", some "m", some "r", some "p"⟩⟩

/-- Fixture: a map operator that returns its params unchanged (and hence
embeds no `_shard_id`). -/
def agentId : AgentEnv := fun _ p _ => p

/-- Fixture: run of `irC9` with completion in task order. -/
def runC9fwd : Except Err (RunOut × Store) :=
  run_ir encodeDoc agentId reducerArr producerId irC9 "ts" irC9.maps []

/-- Fixture: run of `irC9` with completion in reversed task order. -/
def runC9rev : Except Err (RunOut × Store) :=
  run_ir encodeDoc agentId reducerArr producerId irC9 "ts" irC9.maps.reverse []

/-- Fixture: recorded map-result list of the in-order run. -/
def mapsC9fwd : List Json := okOr [] (runC9fwd.map fun x => x.1.record.maps)

/-- Fixture: recorded map-result list of the reversed run. -/
def mapsC9rev : List Json := okOr [] (runC9rev.map fun x => x.1.record.maps)

/-- C9: the local engine invokes the map operator with exactly the stored
`params` and never consults the compiler-assigned `shard_id` of a task —
two runs whose IRs share a manifest and whose arrival lists agree on
`(operator, params)` pairwise are indistinguishable, whatever the
`shard_id` fields say.  A collected result lacking the `_shard_id` key is
ordered with key `0` and raises no error.  Consequently the ordering
guarantee holds only when results embed their own shard ids: with an
operator that embeds none, the engine still succeeds but the recorded
result order follows completion order. -/
theorem engine_uses_embedded_shard_ids_only :
    (∀ (hJ : Json → String) (A : AgentEnv) (R : ReducerEnv) (P : ProducerEnv)
        (ir₁ ir₂ : IR) (ts : String) (arr₁ arr₂ : List MapTask) (store : Store),
        ir₁.manifest = ir₂.manifest →
        arr₁.map (fun t => (t.operator, t.params))
          = arr₂.map (fun t => (t.operator, t.params)) →
        run_ir hJ A R P ir₁ ts arr₁ store = run_ir hJ A R P ir₂ ts arr₂ store)
    ∧ (∀ kvs : JsonObj, objLookup kvs "_shard_id" = none →
        getShardKey (.obj kvs) = 0)
    ∧ (isOkB runC9fwd = true ∧ isOkB runC9rev = true ∧ mapsC9fwd ≠ mapsC9rev) := by
  refine ⟨?_, ?_, rfl, rfl, by decide⟩
  · intro hJ A R P ir₁ ir₂ ts arr₁ arr₂ store hman hstrip
    have hres : ∀ (mref seed : String),
        arr₁.map (fun t => A mref t.params seed)
          = arr₂.map (fun t => A mref t.params seed) := by
      intro mref seed
      have h := congrArg (List.map fun pr : String × Json => A mref pr.2 seed) hstrip
      simpa [List.map_map, Function.comp] using h
    unfold run_ir
    rw [hman]
    cases ir₂.manifest.opMap with
    | none => rfl
    | some mref =>
      cases ir₂.manifest.opReduce with
      | none => rfl
      | some rref =>
        cases ir₂.manifest.opProduce with
        | none => rfl
        | some pref =>
          dsimp only
          rw [hres mref ir₂.manifest.seed]
  · intro kvs h
    simp [getShardKey, h]

/-- Witness for C9: two arrivals sharing operators and params but with
different `shard_id` fields produce identical runs. -/
theorem engine_uses_embedded_shard_ids_only_witness :
    ((irC2.manifest = irC2.manifest)
      ∧ ([(⟨"m", 5, .num 0⟩ : MapTask)].map (fun t => (t.operator, t.params))
          = [(⟨"m", 9, .num 0⟩ : MapTask)].map (fun t => (t.operator, t.params))))
    ∧ run_ir encodeDoc agentEmbed reducerArr producerId irC2 "ts"
        [⟨"m", 5, .num 0⟩] []
        = run_ir encodeDoc agentEmbed reducerArr producerId irC2 "ts"
            [⟨"m", 9, .num 0⟩] [] :=
  ⟨⟨rfl, by decide⟩,
    engine_uses_embedded_shard_ids_only.1 encodeDoc agentEmbed reducerArr
      producerId irC2 irC2 "ts" [⟨"m", 5, .num 0⟩] [⟨"m", 9, .num 0⟩] []
      rfl (by decide)⟩

/-- Sorting by key maps permuted inputs to the same list when the key
separates distinct elements (ties only between equal elements). -/
theorem sortByKey_perm_eq_of_inj {α β : Type} [LinearOrder β] (k : α → β)
    (l₁ l₂ : List α) (hperm : l₁.Perm l₂)
    (hinj : ∀ a ∈ l₂, ∀ b ∈ l₂, k a = k b → a = b) :
    sortByKey k l₁ = sortByKey k l₂ := by
  refine sorted_perm_unique k _ _
    ((sortByKey_perm k l₁).trans (hperm.trans (sortByKey_perm k l₂).symm))
    (sortByKey_pairwise k l₁) (sortByKey_pairwise k l₂) ?_
  intro a ha b hb hk
  have ha' : a ∈ l₂ := hperm.subset ((sortByKey_perm k l₁).subset ha)
  have hb' : b ∈ l₂ := hperm.subset ((sortByKey_perm k l₁).subset hb)
  exact hinj a ha' b hb' hk

/-- C3 (amended): permuting the input shard list before compilation changes
no shard_id assignment — the compiled map-task lists are identical, as are
ops-dir state, policy and resolved operator references — provided distinct
shards have distinct content digests; and the reduce/produce outputs (and
the whole recorded result list) are unchanged provided the operators do not
depend on the seed.  The derived seed itself hashes the shards in their
original order, so permuting the inputs does change the seed, and a
seed-sensitive operator can observe it (see the counterexample). -/
theorem shard_order_invariance (hJ : Json → String) (hS : String → String)
    (A : AgentEnv) (R : ReducerEnv) (P : ProducerEnv)
    (job : JobSpec) (shards₂ : List Json) (st : CompSt)
    (ir : IR) (m : Manifest) (p : Json) (st' : CompSt)
    (ir₂ : IR) (m₂ : Manifest) (p₂ : Json) (st₂' : CompSt)
    (hperm : shards₂.Perm job.map.shards)
    (hinj : ∀ a ∈ job.map.shards, ∀ b ∈ job.map.shards,
        hJ (normJson a) = hJ (normJson b) → a = b)
    (hok1 : compile_job hJ hS job st = .ok (ir, m, p, st'))
    (hok2 : compile_job hJ hS {job with map := {job.map with shards := shards₂}} st
        = .ok (ir₂, m₂, p₂, st₂'))
    (hA : ∀ r x s s', A r x s = A r x s')
    (hR : ∀ r xs s s', R r xs s = R r xs s')
    (hP : ∀ r x s s', P r x s = P r x s') :
    ir₂.maps = ir.maps ∧ st₂' = st' ∧ p₂ = p
    ∧ m₂.opMap = m.opMap ∧ m₂.opReduce = m.opReduce ∧ m₂.opProduce = m.opProduce
    ∧ (∀ ts arrival store out₁ store₁ out₂ store₂,
        run_ir hJ A R P ir ts arrival store = .ok (out₁, store₁) →
        run_ir hJ A R P ir₂ ts arrival store = .ok (out₂, store₂) →
        out₂.record.maps = out₁.record.maps
        ∧ out₂.record.reduceOut = out₁.record.reduceOut
        ∧ out₂.record.produceOut = out₁.record.produceOut) := by
  have hsort : sortByKey (fun s => strKey (hJ (normJson s))) shards₂
      = sortByKey (fun s => strKey (hJ (normJson s))) job.map.shards :=
    sortByKey_perm_eq_of_inj _ shards₂ job.map.shards hperm
      (fun a ha b hb hk => hinj a ha b hb (strKey_inj hk))
  obtain ⟨maps, st1, rop, st2, pop, hbm1, hred1, hprod1, hm1, hir1, hp1⟩ :=
    compile_job_ok_elim hJ hS job st ir m p st' hok1
  obtain ⟨maps2, st1b, rop2, st2b, pop2, hbm2, hred2, hprod2, hm2, hir2, hp2⟩ :=
    compile_job_ok_elim hJ hS {job with map := {job.map with shards := shards₂}} st
      ir₂ m₂ p₂ st₂' hok2
  dsimp only at hbm2 hred2 hprod2 hm2 hir2
  rw [hsort, hbm1] at hbm2
  simp only [Except.ok.injEq, Prod.mk.injEq] at hbm2
  obtain ⟨hmaps2, hst1b⟩ := hbm2
  subst hmaps2
  subst hst1b
  rw [hred1] at hred2
  simp only [Except.ok.injEq, Prod.mk.injEq] at hred2
  obtain ⟨hrop2, hst2b⟩ := hred2
  subst hrop2
  subst hst2b
  rw [hprod1] at hprod2
  simp only [Except.ok.injEq, Prod.mk.injEq] at hprod2
  obtain ⟨hpop2, hst3b⟩ := hprod2
  subst hpop2
  subst hst3b
  subst hm1
  subst hm2
  subst hir1
  subst hir2
  subst hp1
  subst hp2
  refine ⟨rfl, rfl, rfl, rfl, rfl, rfl, ?_⟩
  intro ts arrival store out₁ store₁ out₂ store₂ hr1 hr2
  cases hOm : (List.lookup "map" st'.materialized).orElse fun _ => job.map.operator with
  | none =>
    rw [run_ir] at hr1
    simp only [hOm] at hr1
    exact absurd hr1 (by simp)
  | some mref =>
    cases hOr : (List.lookup "reduce" st'.materialized).orElse fun _ => job.reduce.operator with
    | none =>
      rw [run_ir] at hr1
      simp only [hOm, hOr] at hr1
      exact absurd hr1 (by simp)
    | some rref =>
      cases hOp : (List.lookup "produce" st'.materialized).orElse fun _ => job.produce.operator with
      | none =>
        rw [run_ir] at hr1
        simp only [hOm, hOr, hOp] at hr1
        exact absurd hr1 (by simp)
      | some pref =>
        have hfun : ∀ s s', (fun t : MapTask => A mref t.params s)
            = fun t : MapTask => A mref t.params s' :=
          fun s s' => funext fun t => hA mref t.params s s'
        rw [run_ir] at hr1 hr2
        simp only [hOm, hOr, hOp, Except.ok.injEq, Prod.mk.injEq] at hr1 hr2
        obtain ⟨hout1, hs1⟩ := hr1
        obtain ⟨hout2, hs2⟩ := hr2
        subst hout1
        subst hout2
        dsimp only
        rw [hfun (derive_seed hJ {job with map := {job.map with shards := shards₂}})
          (derive_seed hJ job)]
        refine ⟨rfl, ?_, ?_⟩
        · rw [hR rref _ (derive_seed hJ {job with map := {job.map with shards := shards₂}})
            (derive_seed hJ job)]
        · rw [hR rref _ (derive_seed hJ {job with map := {job.map with shards := shards₂}})
            (derive_seed hJ job),
            hP pref _ (derive_seed hJ {job with map := {job.map with shards := shards₂}})
            (derive_seed hJ job)]

/-- Fixture: shard `{"t": "a"}`. -/
def shardA : Json := .obj (.cons "t" (.str "a") .nil)

/-- Fixture: shard `{"t": "b"}`. -/
def shardB : Json := .obj (.cons "t" (.str "b") .nil)

/-- Fixture: a reference-only job with shards `[A, B]`. -/
def jobPerm1 : JobSpec :=
  ⟨"v0", "jp", ⟨some "m", none, [shardA, shardB]⟩,
    ⟨some "r", none, .obj .nil⟩, ⟨some "p", none, .obj .nil⟩⟩

/-- Fixture: the same job with shards `[B, A]`. -/
def jobPerm2 : JobSpec :=
  ⟨"v0", "jp", ⟨some "m", none, [shardB, shardA]⟩,
    ⟨some "r", none, .obj .nil⟩, ⟨some "p", none, .obj .nil⟩⟩

/-- Fixture: a reducer that returns the seed it was handed. -/
def reducerSeed : ReducerEnv := fun _ _ s => .str s

/-- Fixture: compilation of `jobPerm1`. -/
def cPerm1 : Except Err (IR × Manifest × Json × CompSt) :=
  compile_job encodeDoc (fun s => s) jobPerm1 ⟨[], []⟩

/-- Fixture: compilation of `jobPerm2`. -/
def cPerm2 : Except Err (IR × Manifest × Json × CompSt) :=
  compile_job encodeDoc (fun s => s) jobPerm2 ⟨[], []⟩

/-- Fixture: compiled plan of `jobPerm1`. -/
def irPerm1 : IR := okOr dummyIR (cPerm1.map fun x => x.1)

/-- Fixture: compiled plan of `jobPerm2`. -/
def irPerm2 : IR := okOr dummyIR (cPerm2.map fun x => x.1)

/-- Fixture: manifest of `jobPerm1`. -/
def mPerm1 : Manifest := okOr ⟨"", "", none, none, none⟩ (cPerm1.map fun x => x.2.1)

/-- Fixture: manifest of `jobPerm2`. -/
def mPerm2 : Manifest := okOr ⟨"", "", none, none, none⟩ (cPerm2.map fun x => x.2.1)

/-- Fixture: ops state after compiling `jobPerm1`. -/
def stPerm1 : CompSt := okOr ⟨[], []⟩ (cPerm1.map fun x => x.2.2.2)

/-- Fixture: ops state after compiling `jobPerm2`. -/
def stPerm2 : CompSt := okOr ⟨[], []⟩ (cPerm2.map fun x => x.2.2.2)

/-- Fixture: reduce output of running `jobPerm1`'s plan with the
seed-returning reducer. -/
def redOutPerm1 : Json :=
  okOr .null ((run_ir encodeDoc agentId reducerSeed producerId irPerm1 "ts"
    irPerm1.maps []).map fun x => x.1.record.reduceOut)

/-- Fixture: reduce output of running `jobPerm2`'s plan likewise. -/
def redOutPerm2 : Json :=
  okOr .null ((run_ir encodeDoc agentId reducerSeed producerId irPerm2 "ts"
    irPerm2.maps []).map fun x => x.1.record.reduceOut)

/-- C3 counterexample: permuting the input shard list changes the derived
seed (it hashes the shards in original order), so a seed-sensitive reducer
produces a different reduce output for the permuted job — the claim as
stated is false. -/
theorem shard_permutation_changes_reduce_output :
    redOutPerm1 ≠ redOutPerm2 := by decide

/-- Witness for C3 (amended) at `jobPerm1` and the swapped shard list,
with seed-insensitive operators. -/
theorem shard_order_invariance_witness :
    ([shardB, shardA].Perm jobPerm1.map.shards
      ∧ (∀ a ∈ jobPerm1.map.shards, ∀ b ∈ jobPerm1.map.shards,
          encodeDoc (normJson a) = encodeDoc (normJson b) → a = b)
      ∧ cPerm1 = .ok (irPerm1, mPerm1, policyReport, stPerm1)
      ∧ compile_job encodeDoc (fun s => s)
          {jobPerm1 with map := {jobPerm1.map with shards := [shardB, shardA]}}
          ⟨[], []⟩ = .ok (irPerm2, mPerm2, policyReport, stPerm2))
    ∧ (irPerm2.maps = irPerm1.maps ∧ stPerm2 = stPerm1 ∧ policyReport = policyReport
      ∧ mPerm2.opMap = mPerm1.opMap ∧ mPerm2.opReduce = mPerm1.opReduce
      ∧ mPerm2.opProduce = mPerm1.opProduce
      ∧ (∀ ts arrival store out₁ store₁ out₂ store₂,
          run_ir encodeDoc agentId reducerArr producerId irPerm1 ts arrival store
            = .ok (out₁, store₁) →
          run_ir encodeDoc agentId reducerArr producerId irPerm2 ts arrival store
            = .ok (out₂, store₂) →
          out₂.record.maps = out₁.record.maps
          ∧ out₂.record.reduceOut = out₁.record.reduceOut
          ∧ out₂.record.produceOut = out₁.record.produceOut)) :=
  ⟨⟨by decide, by decide, by rfl, by rfl⟩,
    shard_order_invariance encodeDoc (fun s => s) agentId reducerArr producerId
      jobPerm1 [shardB, shardA] ⟨[], []⟩ irPerm1 mPerm1 policyReport stPerm1
      irPerm2 mPerm2 policyReport stPerm2 (by decide) (by decide) (by rfl) (by rfl)
      (fun r x s s' => rfl) (fun r xs s s' => rfl) (fun r x s s' => rfl)⟩

/-- Fixture: a reference-only job whose shards are the numbers 0 and 1. -/
def jobC1 : JobSpec :=
  ⟨"v0", "jc1", ⟨some "m", none, [.num 0, .num 1]⟩,
    ⟨some "r", none, .obj .nil⟩, ⟨some "p", none, .obj .nil⟩⟩

/-- Fixture: the compiled plan of `jobC1`. -/
def irC1 : IR :=
  okOr dummyIR ((compile_job encodeDoc (fun s => s) jobC1 ⟨[], []⟩).map fun x => x.1)

/-- Fixture: run digest of executing `jobC1`'s plan (map operator embeds
its params as `_shard_id`) at a given timestamp and completion order. -/
def digestC1 (ts : String) (arr : List MapTask) : String :=
  okOr "" ((run_ir encodeDoc agentEmbed reducerArr producerId irC1 ts arr
    []).map fun x => x.1.run_digest)

set_option maxRecDepth 40000 in
/-- C1: `run_ir` stores the run record with its `output_dir`, a path that
embeds `datetime.utcnow()` at second resolution.  Two executions of the
identical compiled job therefore agree on the canonical digest only when
they fall in the same second: with equal timestamps the digest is
independent of map completion order (first conjunct), but an execution one
second later yields a different digest for the identical job (second
conjunct) — the claimed cross-run digest equality fails on the code. -/
theorem run_digest_depends_on_timestamp :
    isOkB (compile_job encodeDoc (fun s => s) jobC1 ⟨[], []⟩) = true
    ∧ digestC1 "20260101_000000" irC1.maps
        = digestC1 "20260101_000000" irC1.maps.reverse
    ∧ digestC1 "20260101_000000" irC1.maps
        ≠ digestC1 "20260101_000001" irC1.maps :=
  ⟨by decide, by decide, by decide⟩
